import Mathlib

/-!
Verification of the duplicate-file detection pipeline of diskover
(`diskover_dupes.py`) through a shallow embedding.

The embedding translates the source functions `verify_dupes`, `md5_hasher`,
`dupes_finder` and `index_dupes` into pure Lean functions.  External effects
are made explicit:

* the filesystem is a `FileSys`: contents per path plus injected success
  flags for each I/O interaction the code performs (open/read in the
  sampling stage, open/read in the hashing threads, `os.utime`);
* `warnings.warn` calls are collected into a list of strings;
* cryptographic/encoding primitives (`hashlib.md5`, `base64.b64encode`)
  are modelled as injective functions on byte strings, byte strings as
  `List Nat`;
* the thread pool of `md5_hasher` workers is linearised in submission
  order: buckets are processed sequentially behind the per-bucket
  `file_in_thread_q.join()` barrier, exactly as the source synchronises;
  the drain loop `file_out_thread_q.get()` blocks forever when a bucket
  produced no output, which the embedding surfaces as `VerifyOut.blocked`;
* an exception propagating out of `verify_dupes` (the unguarded
  `time.strptime` on the restore path) is surfaced as `VerifyOut.raised`.
-/

namespace Diskover

/-- Byte strings are modelled as lists of naturals. -/
abbrev Bytes := List Nat

/-- A file record as built by `dupes_finder` from an Elasticsearch hit:
document id, reconstructed absolute path, access/modify time strings and the
`md5` field (initially empty). -/
structure FileRec where
  id : String
  filename : String
  atime : String
  mtime : String
  md5 : String
deriving DecidableEq, Repr

/-- A filehash group: one fingerprint plus the files sharing it (the dict
`{'filehash': key, 'files': value}` passed to `verify_dupes`). -/
structure HashGroup where
  filehash : String
  files : List FileRec
deriving DecidableEq, Repr

/-- The configuration slice consulted by the dupes pipeline. -/
structure Config where
  dupes_checkbytes : Nat
  md5_readsize : Nat
  dupes_restoretimes : String
deriving DecidableEq, Repr

/-- The ambient filesystem: contents per path, plus injected success flags
for each I/O interaction of the code.  `sampleOpenOk` is the `open` in the
sampling stage of `verify_dupes`; `sampleReadOk` covers the sample reads on
the opened handle (when false, the head read raises and its 1-byte fallback
read raises as well, as for a persistently failing device); `hashOk` is the
open/read of `md5_hasher`; `utimeOk` is `os.utime`. -/
structure FileSys where
  content : String → Bytes
  sampleOpenOk : String → Bool
  sampleReadOk : String → Bool
  hashOk : String → Bool
  utimeOk : String → Bool

/-- Replace the `os.utime` outcome flag, leaving the rest of the world
unchanged. -/
def FileSys.withUtime (fsys : FileSys) (u : String → Bool) : FileSys :=
  { fsys with utimeOk := u }

@[simp] lemma withUtime_content (fsys : FileSys) (u : String → Bool) :
    (fsys.withUtime u).content = fsys.content := rfl

@[simp] lemma withUtime_sampleOpenOk (fsys : FileSys) (u : String → Bool) :
    (fsys.withUtime u).sampleOpenOk = fsys.sampleOpenOk := rfl

@[simp] lemma withUtime_sampleReadOk (fsys : FileSys) (u : String → Bool) :
    (fsys.withUtime u).sampleReadOk = fsys.sampleReadOk := rfl

@[simp] lemma withUtime_hashOk (fsys : FileSys) (u : String → Bool) :
    (fsys.withUtime u).hashOk = fsys.hashOk := rfl

@[simp] lemma withUtime_utimeOk (fsys : FileSys) (u : String → Bool) :
    (fsys.withUtime u).utimeOk = u := rfl

/-- Model of `hashlib.md5(...).hexdigest()`: an injective digest function on
byte strings (the code relies on md5 being collision-free). -/
def md5hex (b : Bytes) : String := "md5-" ++ toString b

/-- Model of `str(base64.b64encode(...))`: an injective printable rendering
of a byte string, as interpolated into the sample byte string. -/
def b64str (b : Bytes) : String := "b64-" ++ toString b

/-- Model of `.encode("utf-8")`. -/
def utf8 (s : String) : Bytes := s.data.map Char.toNat

/-- Model of `time.mktime(time.strptime(s, "%Y-%m-%dT%H:%M:%S"))`: succeeds
exactly when the string has the shape of that format (length 19 with the
expected separator characters).  Only success or failure is observable in
the pipeline (the resulting number is consumed by `os.utime`, whose own
outcome is injected through `FileSys.utimeOk`). -/
def strptime (s : String) : Option Unit :=
  if s.length = 19 ∧ s.data.getD 4 ' ' = '-' ∧ s.data.getD 7 ' ' = '-' ∧
      s.data.getD 10 ' ' = 'T' ∧ s.data.getD 13 ' ' = ':' ∧ s.data.getD 16 ' ' = ':'
  then some () else none

/-- The tail sample read of `verify_dupes`: `f.seek(-read_bytes, SEEK_END)`
then read `read_bytes`; the seek raises `OSError` when the file is shorter
than `read_bytes` (negative target), and the handler falls back to
`f.seek(-1, SEEK_END)` and a 1-byte read; on an empty file the fallback
seek raises as well and the file is skipped (`none`). -/
def tailSample (k : Nat) (c : Bytes) : Option Bytes :=
  if k ≤ c.length then some (c.drop (c.length - k))
  else if 1 ≤ c.length then some (c.drop (c.length - 1))
  else none

/-- The sample signature of a file: md5 of
`str(b64encode(head)) + str(b64encode(tail))` encoded to utf-8. -/
def sigOf (k : Nat) (c : Bytes) (tl : Bytes) : String :=
  md5hex (utf8 (b64str (c.take k) ++ b64str tl))

/-- The sample signature as a function of the content alone (files that
survive the sampling stage of one run and have equal contents obtain equal
signatures through this function). -/
def sigOfContent (k : Nat) (c : Bytes) : String :=
  sigOf k c ((tailSample k c).getD [])

/-- Outcome of the sampling-stage loop body for one file: `skip` is
`continue` with one warning, `raised` is an exception escaping
`verify_dupes` (unguarded `strptime`), `ok` carries the warnings emitted
(possible `os.utime` failure) and the sample signature. -/
inductive SampleRes where
  | skip (w : String)
  | raised
  | ok (ws : List String) (sig : String)
deriving DecidableEq, Repr

/-- One iteration of the sampling loop of `verify_dupes` (source lines
116-170): open the file, read the head sample (the head read returns short
data rather than raising on short files, so its 1-byte fallback only fires
on real read faults), read the tail sample with the short-file fallback,
close, best-effort restore of atime/mtime, then form the signature. -/
def sampleStep (cfg : Config) (fsys : FileSys) (f : FileRec) : SampleRes :=
  if fsys.sampleOpenOk f.filename = false then .skip ("open fail " ++ f.filename)
  else if fsys.sampleReadOk f.filename = false then .skip ("read fail " ++ f.filename)
  else
    match tailSample cfg.dupes_checkbytes (fsys.content f.filename) with
    | none => .skip ("tail fail " ++ f.filename)
    | some tl =>
      if cfg.dupes_restoretimes = "true" then
        match strptime f.atime, strptime f.mtime with
        | some _, some _ =>
            .ok (if fsys.utimeOk f.filename then [] else ["utime fail " ++ f.filename])
              (sigOf cfg.dupes_checkbytes (fsys.content f.filename) tl)
        | _, _ => .raised
      else .ok [] (sigOf cfg.dupes_checkbytes (fsys.content f.filename) tl)

/-- The `(filename, atime, mtime)` tuples stored in the `dups` dict. -/
abbrev Entry := String × String × String

def entryOf (f : FileRec) : Entry := (f.filename, f.atime, f.mtime)

/-- Add-or-append under a key in an insertion-ordered association list,
modelling the python dict add-or-append idiom used for `dups`,
`dups_md5` and `filehashes`. -/
def addToAssoc {α : Type} (m : List (String × List α)) (k : String) (v : α) :
    List (String × List α) :=
  match m with
  | [] => [(k, [v])]
  | (k2, vs) :: rest =>
      if k2 = k then (k2, vs ++ [v]) :: rest else (k2, vs) :: addToAssoc rest k v

/-- The sampling loop of `verify_dupes`: threads warnings, the surviving
`file_count` and the `dups` dict; `none` models an unhandled exception
propagating out of `verify_dupes`. -/
def sampleLoop (cfg : Config) (fsys : FileSys) :
    List FileRec → List String × Nat × List (String × List Entry) →
    Option (List String × Nat × List (String × List Entry))
  | [], acc => some acc
  | f :: rest, (ws, n, dups) =>
    match sampleStep cfg fsys f with
    | .skip w => sampleLoop cfg fsys rest (ws ++ [w], n, dups)
    | .raised => none
    | .ok w sig => sampleLoop cfg fsys rest (ws ++ w, n + 1, addToAssoc dups sig (entryOf f))

/-- Source line 176: delete every key whose list has fewer than 2 items. -/
def prune {α : Type} (m : List (String × List α)) : List (String × List α) :=
  m.filter fun p => decide (2 ≤ p.2.length)

/-- The read loop of `md5_hasher`: read `read_size` bytes at a time, feeding
the hasher, until a read returns empty.  The fuel argument (always ample) is
only a recursion bound. -/
def hasherRunF : Nat → Nat → Bytes → Bytes → Bytes
  | 0, _, _, acc => acc
  | fuel + 1, readSize, c, acc =>
    if c.take readSize = [] then acc
    else hasherRunF fuel readSize (c.drop readSize) (acc ++ c.take readSize)

/-- The bytes fed to the hasher by the read loop for a file of content `c`. -/
def hasherRun (readSize : Nat) (c : Bytes) : Bytes :=
  hasherRunF (c.length + 1) readSize c []

/-- The digest `md5_hasher` computes for a file of content `c`: md5 of the
chunks fed by the block-wise read loop. -/
def stream_md5 (readSize : Nat) (c : Bytes) : String := md5hex (hasherRun readSize c)

/-- The body of `md5_hasher` for one queue item (source lines 58-95):
warnings plus the `(filename, md5)` result put on the out queue, or `none`
when the item is dropped — an open/read failure, or the `strptime` error of
the restore path, which escapes to the function's outer handler and skips
the `file_out_thread_q.put`. -/
def md5_hasher_step (cfg : Config) (fsys : FileSys) (e : Entry) :
    List String × Option (String × String) :=
  if fsys.hashOk e.1 = false then (["hash fail " ++ e.1], none)
  else
    if cfg.dupes_restoretimes = "true" then
      match strptime e.2.1, strptime e.2.2 with
      | some _, some _ =>
          ((if fsys.utimeOk e.1 then [] else ["hutime fail " ++ e.1]),
            some (e.1, stream_md5 cfg.md5_readsize (fsys.content e.1)))
      | _, _ => (["hparse fail " ++ e.1], none)
    else ([], some (e.1, stream_md5 cfg.md5_readsize (fsys.content e.1)))

/-- One `md5_hasher` item processed on behalf of a bucket: accumulate the
warnings and, when the item was not dropped, the out-queue result. -/
def bucketStep (cfg : Config) (fsys : FileSys)
    (acc : List String × List (String × String)) (e : Entry) :
    List String × List (String × String) :=
  match md5_hasher_step cfg fsys e with
  | (w, some r) => (acc.1 ++ w, acc.2 ++ [r])
  | (w, none) => (acc.1 ++ w, acc.2)

/-- Hashing one sample bucket: all entries are submitted, the join barrier
waits for them, and the results arrive on the out queue (linearised in
submission order). -/
def confirmBucket (cfg : Config) (fsys : FileSys) (entries : List Entry) :
    List String × List (String × String) :=
  entries.foldl (bucketStep cfg fsys) ([], [])

/-- Folding the drained `(filename, md5)` pairs into the `dups_md5` dict
(source lines 200-204). -/
def md5Fold (outs : List (String × String)) (acc : List (String × List String)) :
    List (String × List String) :=
  outs.foldl (fun d p => addToAssoc d p.2 p.1) acc

/-- The confirmation stage over all pruned buckets (source lines 186-209),
folding results into the shared `dups_md5` dict.  When a bucket produced no
output the drain loop's `file_out_thread_q.get()` blocks forever, modelled
by `none`. -/
def confirmAll (cfg : Config) (fsys : FileSys) :
    List (String × List Entry) → List String → List (String × List String) →
    List String × Option (List (String × List String))
  | [], ws, acc => (ws, some acc)
  | (_, entries) :: rest, ws, acc =>
    let r := confirmBucket cfg fsys entries
    if r.2 = [] then (ws ++ r.1, none)
    else confirmAll cfg fsys rest (ws ++ r.1) (md5Fold r.2 acc)

/-- One iteration of the md5-assignment loop: for an md5 bucket with at
least two files, set the `md5` field of every group member whose filename
occurs in the bucket; smaller buckets change nothing. -/
def assignStep (fs : List FileRec) (p : String × List String) : List FileRec :=
  if 2 ≤ p.2.length then
    fs.map fun f => if f.filename ∈ p.2 then { f with md5 := p.1 } else f
  else fs

/-- Source lines 214-219: apply the md5 assignment of every bucket of
`dups_md5` to the group's file list. -/
def assignMd5 (files : List FileRec) (dupsMd5 : List (String × List String)) :
    List FileRec :=
  dupsMd5.foldl assignStep files

/-- Observable outcome of `verify_dupes`: a normal return (`None` or the
updated group), blocking forever in the drain loop, or an unhandled
exception. -/
inductive VerifyOut where
  | ret (g : Option HashGroup)
  | blocked
  | raised
deriving DecidableEq, Repr

/-- The closing lines of `verify_dupes` (211-221) applied to the outcome of
the confirmation stage: blocking propagates, an empty `dups_md5` returns
`None`, and otherwise the group is returned with the md5 assignments of
every confirmed set applied. -/
def verifyFinish (g : HashGroup) :
    List String × Option (List (String × List String)) → List String × VerifyOut
  | (ws2, none) => (ws2, .blocked)
  | (ws2, some dupsMd5) =>
    if dupsMd5 = [] then (ws2, .ret none)
    else (ws2, .ret (some { g with files := assignMd5 g.files dupsMd5 }))

/-- The verify dupes function (source lines 98-221): sample each file into
byte-hash buckets, return `None` when no file survived or no bucket kept at
least two files, then run the md5 confirmation over each bucket and assign
the shared md5 to every confirmed set of at least two files. -/
def verify_dupes (cfg : Config) (fsys : FileSys) (g : HashGroup) :
    List String × VerifyOut :=
  match sampleLoop cfg fsys g.files ([], 0, []) with
  | none => ([], .raised)
  | some (ws, n, dups) =>
    if n = 0 then (ws, .ret none)
    else
      if prune dups = [] then (ws, .ret none)
      else verifyFinish g (confirmAll cfg fsys (prune dups) ws [])

/-- The internal `dups_md5` dict of a `verify_dupes` run, recomputed along
the same path (used to state which files are confirmed). -/
def confirmedMap (cfg : Config) (fsys : FileSys) (g : HashGroup) :
    Option (List (String × List String)) :=
  match sampleLoop cfg fsys g.files ([], 0, []) with
  | none => none
  | some (ws, n, dups) =>
    if n = 0 then none
    else if prune dups = [] then none
    else (confirmAll cfg fsys (prune dups) ws []).2

/-- The outcome of the sampling stage alone: the surviving `file_count` and
the `dups` dict, or `none` when an exception escaped. -/
def samplingOutcome (cfg : Config) (fsys : FileSys) (g : HashGroup) :
    Option (Nat × List (String × List Entry)) :=
  (sampleLoop cfg fsys g.files ([], 0, [])).map (fun t => t.2)

/-! ### dupes_finder -/

/-- One Elasticsearch hit as consumed by `dupes_finder` (document id plus
the requested `_source` fields). -/
structure EsHit where
  id : String
  filename : String
  path_parent : String
  last_access : String
  last_modified : String
  filehash : String
deriving DecidableEq, Repr

/-- Model of `os.path.join` on the two components used by the source. -/
def pathJoin (a b : String) : String := a ++ "/" ++ b

/-- The file record `dupes_finder` appends for one hit (source lines
283-294): note the `md5` field is initialised to the empty string. -/
def hitToFileRec (h : EsHit) : FileRec :=
  { id := h.id
    filename := pathJoin h.path_parent h.filename
    atime := h.last_access
    mtime := h.last_modified
    md5 := "" }

/-- The `filehashes` dict built from the scroll results (lines 277-298). -/
def buildFilehashes (hits : List EsHit) : List (String × List FileRec) :=
  hits.foldl (fun m h => addToAssoc m h.filehash (hitToFileRec h)) []

/-- Lines 300-306: delete every filehash with fewer than 2 files. -/
def pruneFilehashes (fhs : List (String × List FileRec)) :
    List (String × List FileRec) := prune fhs

/-- The `possibledupescount` accumulated over the surviving buckets. -/
def possibleDupesCount (fhs : List (String × List FileRec)) : Nat :=
  (pruneFilehashes fhs).foldl (fun acc p => acc + p.2.length) 0

/-- The hash group built for one surviving filehash (line 326). -/
def mkHG (p : String × List FileRec) : HashGroup :=
  { filehash := p.1, files := p.2 }

/-- The enqueue loop of `dupes_finder` (lines 321-342): accumulate groups,
enqueue a batch when the count reaches the current batch size, clear, ask
`adaptive_batch` (modelled by the parameter `adaptF`) for the next size when
adaptive batching is on, and enqueue any non-empty remainder at the end.
Returns the list of enqueued jobs, each a list of hash groups. -/
def enqueueLoop (adaptive : Bool) (adaptF : Nat → Nat) :
    List (String × List FileRec) → Nat → Nat → List HashGroup →
    List (List HashGroup)
  | [], n, _, acc => if 0 < n then [acc] else []
  | p :: rest, n, batchsize, acc =>
    if batchsize ≤ n + 1 then
      (acc ++ [mkHG p]) ::
        enqueueLoop adaptive adaptF rest 0
          (if adaptive then adaptF batchsize else batchsize) []
    else enqueueLoop adaptive adaptF rest (n + 1) batchsize (acc ++ [mkHG p])

/-- The jobs `dupes_finder` enqueues for a scan result. -/
def dupesFinderJobs (adaptive : Bool) (adaptF : Nat → Nat) (batchsize0 : Nat)
    (fhs : List (String × List FileRec)) : List (List HashGroup) :=
  enqueueLoop adaptive adaptF (pruneFilehashes fhs) 0 batchsize0 []

/-! ### The candidate query -/

/-- A JSON value, for the query body literals of `dupes_finder`. -/
inductive Json where
  | str : String → Json
  | nat : Nat → Json
  | arr : List Json → Json
  | obj : List (String × Json) → Json

/-- The `_source` field list shared by both query shapes. -/
def sourceFieldsJson : Json :=
  .arr [.str "filename", .str "filehash", .str "path_parent",
        .str "last_modified", .str "last_access"]

/-- The `filesize` range filter shared by both query shapes. -/
def filesizeRange (dupes_maxsize minsize : Nat) : Json :=
  .obj [("filesize", .obj [("lte", .nat dupes_maxsize), ("gte", .nat minsize)])]

/-- The query body `dupes_finder` builds (source lines 233-269): with
`inchardlinks` only the size range is required; without it a
`term hardlinks = 1` must-clause is added and the range becomes a filter. -/
def dupesQuery (inchardlinks : Bool) (dupes_maxsize minsize : Nat) : Json :=
  if inchardlinks then
    .obj [("size", .nat 0),
          ("_source", sourceFieldsJson),
          ("query", .obj [("bool", .obj [
            ("must", .obj [("range", filesizeRange dupes_maxsize minsize)])])])]
  else
    .obj [("size", .nat 0),
          ("_source", sourceFieldsJson),
          ("query", .obj [("bool", .obj [
            ("must", .obj [("term", .obj [("hardlinks", .nat 1)])]),
            ("filter", .obj [("range", filesizeRange dupes_maxsize minsize)])])])]

/-- Look a key up in a JSON object. -/
def getKey : Json → String → Option Json
  | .obj l, k => l.lookup k
  | _, _ => none

/-- Follow a path of object keys. -/
def getPath : Json → List String → Option Json
  | j, [] => some j
  | j, k :: ks =>
    match getKey j k with
    | some v => getPath v ks
    | none => none

/-! ### index_dupes -/

/-- One bulk partial-update operation as built by `index_dupes` (source
lines 38-46): the doc body is the single-field `dupe_md5` partial update. -/
structure UpdateOp where
  op_type : String
  index : String
  doc_type : String
  id : String
  doc : List (String × String)
deriving DecidableEq, Repr

/-- The operation `index_dupes` appends for one file of a hash group. -/
def mkUpdateOp (indexName : String) (f : FileRec) : UpdateOp :=
  { op_type := "update"
    index := indexName
    doc_type := "file"
    id := f.id
    doc := [("dupe_md5", f.md5)] }

/-- The ES dupe_md5 tag update function (source lines 30-48): build one
update operation per file of the group, and submit them as one bulk write
only when the list is non-empty (`none` = no bulk write submitted). -/
def index_dupes (indexName : String) (g : HashGroup) : Option (List UpdateOp) :=
  let ops := g.files.map (mkUpdateOp indexName)
  if 0 < ops.length then some ops else none

/-! ### General helper lemmas -/

lemma addToAssoc_ne_nil {α : Type} (m : List (String × List α)) (k : String) (v : α) :
    addToAssoc m k v ≠ [] := by
  cases m with
  | nil => simp [addToAssoc]
  | cons p rest =>
    obtain ⟨k2, vs⟩ := p
    unfold addToAssoc
    split <;> simp

lemma addToAssoc_singleton {α : Type} (k : String) (vs : List α) (v : α) :
    addToAssoc [(k, vs)] k v = [(k, vs ++ [v])] := by
  simp [addToAssoc]

lemma md5Fold_ne_nil (outs : List (String × String)) (acc : List (String × List String))
    (h : outs ≠ [] ∨ acc ≠ []) : md5Fold outs acc ≠ [] := by
  induction outs generalizing acc with
  | nil =>
    rcases h with h | h
    · exact absurd rfl h
    · simpa [md5Fold] using h
  | cons p rest ih =>
    simp only [md5Fold, List.foldl_cons]
    exact ih (addToAssoc acc p.2 p.1) (Or.inr (addToAssoc_ne_nil _ _ _))

lemma foldl_add_length {α : Type} (l : List (String × List α)) (a : Nat) :
    l.foldl (fun acc p => acc + p.2.length) a = a + (l.map (fun p => p.2.length)).sum := by
  induction l generalizing a with
  | nil => simp
  | cons p rest ih => simp [ih, Nat.add_assoc]

/-! ### C6 / C8: dupes_finder pruning and batching -/

lemma enqueueLoop_spec (adaptive : Bool) (adaptF : Nat → Nat) :
    ∀ (items : List (String × List FileRec)) (n b : Nat) (acc : List HashGroup),
    n = acc.length →
    (enqueueLoop adaptive adaptF items n b acc).flatten = acc ++ items.map mkHG ∧
    ∀ batch ∈ enqueueLoop adaptive adaptF items n b acc, batch ≠ [] := by
  intro items
  induction items with
  | nil =>
    intro n b acc hlen
    unfold enqueueLoop
    split
    · constructor
      · simp
      · intro batch hb
        simp only [List.mem_singleton] at hb
        subst hb
        intro hnil
        subst hnil
        simp at hlen
        omega
    · constructor
      · have : acc = [] := by
          have : acc.length = 0 := by omega
          exact List.length_eq_zero.mp this
        simp [this]
      · intro batch hb; simp at hb
  | cons p rest ih =>
    intro n b acc hlen
    unfold enqueueLoop
    split
    · have h := ih 0 (if adaptive then adaptF b else b) [] rfl
      constructor
      · simp only [List.flatten_cons, h.1]
        simp
      · intro batch hb
        rcases List.mem_cons.mp hb with hb | hb
        · subst hb; simp
        · exact h.2 batch hb
    · have h := ih (n + 1) b (acc ++ [mkHG p]) (by simp [hlen])
      constructor
      · rw [h.1]; simp
      · exact h.2

/-- C6: a fingerprint bucket with a single file never becomes a hash group:
`dupes_finder` deletes every filehash key with fewer than two records before
any enqueue, every enqueued hash group holds at least two file records, and
the reported possible-dupe count sums exactly the sizes of the surviving
buckets. -/
theorem c6_min_group_size (hits : List EsHit) (adaptive : Bool)
    (adaptF : Nat → Nat) (b0 : Nat) :
    (∀ p ∈ pruneFilehashes (buildFilehashes hits), 2 ≤ p.2.length) ∧
    possibleDupesCount (buildFilehashes hits) =
      ((pruneFilehashes (buildFilehashes hits)).map (fun p => p.2.length)).sum ∧
    ∀ batch ∈ dupesFinderJobs adaptive adaptF b0 (buildFilehashes hits),
      ∀ hg ∈ batch, 2 ≤ hg.files.length := by
  refine ⟨?_, ?_, ?_⟩
  · intro p hp
    have := List.mem_filter.mp hp
    simpa using this.2
  · simp [possibleDupesCount, foldl_add_length]
  · intro batch hb hg hhg
    have hspec := enqueueLoop_spec adaptive adaptF
      (pruneFilehashes (buildFilehashes hits)) 0 b0 [] rfl
    have hjoin : hg ∈ (enqueueLoop adaptive adaptF
        (pruneFilehashes (buildFilehashes hits)) 0 b0 []).flatten :=
      List.mem_flatten.mpr ⟨batch, hb, hhg⟩
    rw [hspec.1] at hjoin
    simp only [List.nil_append, List.mem_map] at hjoin
    obtain ⟨p, hp, rfl⟩ := hjoin
    have := List.mem_filter.mp hp
    simpa [mkHG] using this.2

/-- C8: the enqueue loop of `dupes_finder` partitions the surviving hash
groups into the enqueued jobs exactly: the concatenation of all enqueued
batches is the original sequence of groups in order (so no group is lost or
enqueued twice), and every enqueued batch is non-empty (a full batch, or the
final non-empty remainder). -/
theorem c8_batching (adaptive : Bool) (adaptF : Nat → Nat) (b0 : Nat)
    (groups : List (String × List FileRec)) :
    (enqueueLoop adaptive adaptF groups 0 b0 []).flatten = groups.map mkHG ∧
    ∀ batch ∈ enqueueLoop adaptive adaptF groups 0 b0 [], batch ≠ [] := by
  have h := enqueueLoop_spec adaptive adaptF groups 0 b0 [] rfl
  exact ⟨by simpa using h.1, h.2⟩

/-- Concrete scan result used to instantiate the C6 and C8 theorems. -/
def hitW (nm fh : String) : EsHit :=
  { id := "id-" ++ nm, filename := nm, path_parent := "/d",
    last_access := "2019-01-01T00:00:00", last_modified := "2019-01-01T00:00:00",
    filehash := fh }

def hitsW : List EsHit := [hitW "a" "h1", hitW "b" "h1", hitW "c" "h2"]

/-- Witness for C6: on a concrete scan result with one two-file bucket and
one singleton, the dispatched group has at least two records and the count
is 2. -/
theorem c6_min_group_size_witness :
    2 ≤ (mkHG ("h1", [hitToFileRec (hitW "a" "h1"), hitToFileRec (hitW "b" "h1")])).files.length ∧
    possibleDupesCount (buildFilehashes hitsW) = 2 := by
  have h := c6_min_group_size hitsW false (fun b => b) 5
  refine ⟨?_, ?_⟩
  · exact h.2.2 [mkHG ("h1", [hitToFileRec (hitW "a" "h1"), hitToFileRec (hitW "b" "h1")])]
      (by decide) _ (by decide)
  · rw [h.2.1]; decide

def groupsW : List (String × List FileRec) :=
  [("h1", [hitToFileRec (hitW "a" "h1")]), ("h2", [hitToFileRec (hitW "b" "h2")]),
   ("h3", [hitToFileRec (hitW "c" "h3")])]

/-- Witness for C8: with batch size 2 and three groups, the two enqueued
jobs concatenate back to the three groups and the final partial batch is
non-empty. -/
theorem c8_batching_witness :
    (enqueueLoop false (fun b => b) groupsW 0 2 []).flatten = groupsW.map mkHG ∧
    ([mkHG ("h3", [hitToFileRec (hitW "c" "h3")])] : List HashGroup) ≠ [] := by
  have h := c8_batching false (fun b => b) 2 groupsW
  exact ⟨h.1, h.2 _ (by decide)⟩

/-! ### C7: the candidate query -/

/-- C7: the candidate query applies the hard-link filter with the stated
polarity.  Both shapes request the same `_source` fields; without
`inchardlinks` the query requires `term hardlinks = 1` and filters on the
size range `[minsize, dupes_maxsize]`; with `inchardlinks` the bool query
consists of the size-range must-clause alone, so no hard-link condition
occurs anywhere in it. -/
theorem c7_query_shape (maxsize minsize : Nat) :
    getPath (dupesQuery true maxsize minsize) ["_source"] =
      getPath (dupesQuery false maxsize minsize) ["_source"] ∧
    getPath (dupesQuery true maxsize minsize) ["_source"] = some sourceFieldsJson ∧
    getPath (dupesQuery false maxsize minsize)
      ["query", "bool", "must", "term", "hardlinks"] = some (.nat 1) ∧
    getPath (dupesQuery false maxsize minsize)
      ["query", "bool", "filter", "range", "filesize"] =
      some (.obj [("lte", .nat maxsize), ("gte", .nat minsize)]) ∧
    getPath (dupesQuery true maxsize minsize) ["query", "bool"] =
      some (.obj [("must", .obj [("range", filesizeRange maxsize minsize)])]) := by
  refine ⟨rfl, rfl, rfl, rfl, rfl⟩

/-! ### C9: index_dupes -/

/-- C9: `index_dupes` builds exactly one partial-update operation per file
of the group, in input order, each addressed by that file's document id and
carrying a doc body that consists of the single `dupe_md5` field; distinct
input ids give distinct operation ids; and when the group's file list is
empty no bulk write is submitted at all. -/
theorem c9_index_dupes (idx : String) (g : HashGroup) :
    (g.files = [] → index_dupes idx g = none) ∧
    (g.files ≠ [] → ∃ ops, index_dupes idx g = some ops ∧
      ops.length = g.files.length ∧
      (∀ i (hi : i < g.files.length) (hi2 : i < ops.length),
        ops[i] = mkUpdateOp idx g.files[i] ∧
        ops[i].id = g.files[i].id ∧
        ops[i].doc = [("dupe_md5", g.files[i].md5)]) ∧
      ops.map UpdateOp.id = g.files.map FileRec.id ∧
      ((g.files.map FileRec.id).Nodup → (ops.map UpdateOp.id).Nodup)) := by
  constructor
  · intro h
    simp [index_dupes, h]
  · intro h
    have hmapid : (g.files.map (mkUpdateOp idx)).map UpdateOp.id =
        g.files.map FileRec.id := by
      simp [List.map_map, mkUpdateOp, Function.comp]
    refine ⟨g.files.map (mkUpdateOp idx), ?_, by simp, ?_, hmapid, ?_⟩
    · simp [index_dupes, List.length_pos, h]
    · intro i hi hi2
      refine ⟨by simp, by simp [mkUpdateOp], by simp [mkUpdateOp]⟩
    · intro hnd
      rw [hmapid]
      exact hnd

/-- Healthy filesystem: the given contents, every I/O interaction succeeds. -/
def fsHealthy (c : String → Bytes) : FileSys :=
  { content := c, sampleOpenOk := fun _ => true, sampleReadOk := fun _ => true,
    hashOk := fun _ => true, utimeOk := fun _ => true }

/-- A well-formed recorded timestamp. -/
def goodTime : String := "2019-01-01T00:00:00"

/-- A file record with well-formed timestamps and the initial empty md5. -/
def recW (nm : String) : FileRec :=
  { id := "id-" ++ nm, filename := nm, atime := goodTime, mtime := goodTime, md5 := "" }

/-- Witness for C9: a concrete two-file group yields exactly two update
operations with the group's document ids. -/
theorem c9_index_dupes_witness :
    ({ filehash := "h", files := [recW "a", recW "b"] } : HashGroup).files ≠ [] ∧
    (∃ ops, index_dupes "ix" { filehash := "h", files := [recW "a", recW "b"] } = some ops ∧
      ops.length = ({ filehash := "h", files := [recW "a", recW "b"] } : HashGroup).files.length ∧
      (∀ i (hi : i < ({ filehash := "h", files := [recW "a", recW "b"] } : HashGroup).files.length)
        (hi2 : i < ops.length),
        ops[i] = mkUpdateOp "ix" ({ filehash := "h", files := [recW "a", recW "b"] } : HashGroup).files[i] ∧
        ops[i].id = ({ filehash := "h", files := [recW "a", recW "b"] } : HashGroup).files[i].id ∧
        ops[i].doc = [("dupe_md5", ({ filehash := "h", files := [recW "a", recW "b"] } : HashGroup).files[i].md5)]) ∧
      ops.map UpdateOp.id =
        ({ filehash := "h", files := [recW "a", recW "b"] } : HashGroup).files.map FileRec.id ∧
      ((({ filehash := "h", files := [recW "a", recW "b"] } : HashGroup).files.map FileRec.id).Nodup →
        (ops.map UpdateOp.id).Nodup)) :=
  ⟨by decide, (c9_index_dupes "ix" { filehash := "h", files := [recW "a", recW "b"] }).2 (by decide)⟩

/-! ### C2: a group of two 0-byte files -/

def cfgC2 : Config :=
  { dupes_checkbytes := 2, md5_readsize := 4, dupes_restoretimes := "false" }

def fsysC2 : FileSys := fsHealthy (fun _ => [])

def grpC2 : HashGroup := { filehash := "fh", files := [recW "a", recW "b"] }

/-- C2 (failing evaluation): on a group of two 0-byte files with healthy
I/O, both files are skipped by the sampling stage — the tail 1-byte
fallback `f.seek(-1, SEEK_END)` raises on an empty file — so each emits a
tail warning, no sample signature is formed, and `verify_dupes` returns
`None` instead of confirming both with the md5 of empty content. -/
theorem c2_zero_byte_group_dropped :
    fsysC2.content "a" = fsysC2.content "b" ∧
    fsysC2.content "a" = [] ∧
    verify_dupes cfgC2 fsysC2 grpC2 = (["tail fail a", "tail fail b"], VerifyOut.ret none) := by
  refine ⟨rfl, rfl, by decide⟩

/-! ### C3: an all-fail bucket blocks the drain loop -/

def cfgC3 : Config :=
  { dupes_checkbytes := 2, md5_readsize := 4, dupes_restoretimes := "false" }

def fsysC3 : FileSys :=
  { fsHealthy (fun _ => [7]) with hashOk := fun _ => false }

def grpC3 : HashGroup := { filehash := "fh", files := [recW "a", recW "b"] }

/-- C3 (failing evaluation): two identical 1-byte files sample into one
bucket, but both fail the md5 stage with an I/O error; the hashing threads
drop both items, the bucket's drain loop calls `file_out_thread_q.get()` on
an empty queue, and `verify_dupes` blocks forever instead of returning. -/
theorem c3_all_fail_bucket_blocks :
    fsysC3.hashOk "a" = false ∧ fsysC3.hashOk "b" = false ∧
    (verify_dupes cfgC3 fsysC3 grpC3).2 = VerifyOut.blocked := by
  refine ⟨rfl, rfl, by decide⟩

/-! ### C4: the nothing-confirmed return value -/

def cfgC4 : Config :=
  { dupes_checkbytes := 1, md5_readsize := 4, dupes_restoretimes := "false" }

def fsysC4 : FileSys :=
  fsHealthy (fun nm => if nm = "a" then [0, 5, 9] else [0, 6, 9])

def grpC4 : HashGroup := { filehash := "fh", files := [recW "a", recW "b"] }

/-- C4 (counterexample): two files share head and tail samples but differ in
content, so the single multi-member sample bucket splits into two singleton
md5 groups — zero confirmed duplicate sets — yet `verify_dupes` does not
return `None`: `dups_md5` is non-empty, so it returns the group object
(with every md5 field still empty). -/
theorem c4_counterexample :
    confirmedMap cfgC4 fsysC4 grpC4 =
      some [("md5-[0, 5, 9]", ["a"]), ("md5-[0, 6, 9]", ["b"])] ∧
    verify_dupes cfgC4 fsysC4 grpC4 = ([], VerifyOut.ret (some grpC4)) ∧
    VerifyOut.ret (some grpC4) ≠ VerifyOut.ret none := by
  refine ⟨by decide, by decide, by decide⟩

/-! ### C5: best-effort timestamp restore -/

def cfgC5 : Config :=
  { dupes_checkbytes := 1, md5_readsize := 4, dupes_restoretimes := "true" }

def fsysC5 : FileSys := fsHealthy (fun _ => [1])

def badRecC5 : FileRec :=
  { id := "i", filename := "a", atime := "not-a-time", mtime := goodTime, md5 := "" }

def grpC5 : HashGroup := { filehash := "fh", files := [badRecC5] }

/-- C5 (counterexample): with timestamp preservation enabled and a recorded
atime that fails to parse, the unguarded `time.strptime` call of the
sampling stage raises out of `verify_dupes`, and in `md5_hasher` the same
parse failure is caught by the outer handler, which drops the file's hash
result — both contradicting "logged and swallowed, never raises, never
drops the hash result". -/
theorem c5_counterexample :
    strptime badRecC5.atime = none ∧
    (verify_dupes cfgC5 fsysC5 grpC5).2 = VerifyOut.raised ∧
    (md5_hasher_step cfgC5 fsysC5 ("a", "not-a-time", goodTime)).2 = none := by
  refine ⟨by decide, by decide, by decide⟩

/-! ### The streaming read loop of md5_hasher -/

lemma take_eq_nil_cases {c : Bytes} {n : Nat} (h : c.take n = []) : c = [] ∨ n = 0 := by
  cases c with
  | nil => exact Or.inl rfl
  | cons a l =>
    cases n with
    | zero => exact Or.inr rfl
    | succ m => simp at h

lemma hasherRunF_spec (readSize : Nat) (hrs : 0 < readSize) :
    ∀ (fuel : Nat) (c acc : Bytes), c.length < fuel →
    hasherRunF fuel readSize c acc = acc ++ c := by
  intro fuel
  induction fuel with
  | zero => intro c acc h; omega
  | succ m ih =>
    intro c acc h
    unfold hasherRunF
    split
    · rename_i htake
      rcases take_eq_nil_cases htake with hc | hn
      · simp [hc]
      · omega
    · rename_i htake
      have hcne : c ≠ [] := by
        intro hc
        subst hc
        simp at htake
      have hpos : 0 < c.length := List.length_pos.mpr hcne
      have hlen : (c.drop readSize).length < m := by
        rw [List.length_drop]
        omega
      rw [ih (c.drop readSize) (acc ++ c.take readSize) hlen]
      rw [List.append_assoc, List.take_append_drop]

/-- The digest the block-wise read loop of `md5_hasher` produces is the md5
of the complete content (the claims' sense of "streaming the file in
blocks"), for any positive configured read size. -/
lemma stream_md5_eq (readSize : Nat) (c : Bytes) (hrs : 0 < readSize) :
    stream_md5 readSize c = md5hex c := by
  unfold stream_md5 hasherRun
  rw [hasherRunF_spec readSize hrs (c.length + 1) c [] (by omega)]
  rfl

/-! ### The sampling stage on healthy identical files -/

lemma tailSample_some {k : Nat} {c : Bytes} (hne : c ≠ []) :
    tailSample k c = some ((tailSample k c).getD []) := by
  unfold tailSample
  split
  · rfl
  · split
    · rfl
    · rename_i h1 h2
      exfalso
      have : c.length = 0 := by omega
      exact hne (List.length_eq_zero.mp this)

lemma sampleStep_ok (cfg : Config) (fsys : FileSys) (f : FileRec)
    (ho : fsys.sampleOpenOk f.filename = true)
    (hr : fsys.sampleReadOk f.filename = true)
    (hne : fsys.content f.filename ≠ [])
    (hat : cfg.dupes_restoretimes = "true" →
      (strptime f.atime).isSome ∧ (strptime f.mtime).isSome) :
    ∃ w, sampleStep cfg fsys f =
      .ok w (sigOfContent cfg.dupes_checkbytes (fsys.content f.filename)) := by
  obtain ⟨tl, htl⟩ : ∃ tl,
      tailSample cfg.dupes_checkbytes (fsys.content f.filename) = some tl :=
    ⟨_, tailSample_some hne⟩
  have hgetD : (tailSample cfg.dupes_checkbytes (fsys.content f.filename)).getD [] = tl := by
    rw [htl]
    rfl
  by_cases hres : cfg.dupes_restoretimes = "true"
  · obtain ⟨ua, hua⟩ := Option.isSome_iff_exists.mp (hat hres).1
    obtain ⟨ub, hub⟩ := Option.isSome_iff_exists.mp (hat hres).2
    refine ⟨if fsys.utimeOk f.filename then [] else ["utime fail " ++ f.filename], ?_⟩
    simp [sampleStep, ho, hr, htl, hres, hua, hub, sigOfContent, hgetD]
  · refine ⟨[], ?_⟩
    simp [sampleStep, ho, hr, htl, hres, sigOfContent, hgetD]

lemma sampleLoop_const (cfg : Config) (fsys : FileSys) (sig : String) :
    ∀ (files : List FileRec) (ws : List String) (n : Nat) (es : List Entry),
    (∀ f ∈ files, ∃ w, sampleStep cfg fsys f = .ok w sig) →
    ∃ ws2, sampleLoop cfg fsys files (ws, n, [(sig, es)]) =
      some (ws2, n + files.length, [(sig, es ++ files.map entryOf)]) := by
  intro files
  induction files with
  | nil =>
    intro ws n es hsteps
    exact ⟨ws, by simp [sampleLoop]⟩
  | cons f rest ih =>
    intro ws n es hsteps
    obtain ⟨w, hw⟩ := hsteps f (List.mem_cons_self f rest)
    have hunf : sampleLoop cfg fsys (f :: rest) (ws, n, [(sig, es)]) =
        sampleLoop cfg fsys rest (ws ++ w, n + 1, [(sig, es ++ [entryOf f])]) := by
      simp only [sampleLoop, hw]
      rw [addToAssoc_singleton]
    rw [hunf]
    obtain ⟨ws2, hws2⟩ := ih (ws ++ w) (n + 1) (es ++ [entryOf f])
      (fun f2 hf2 => hsteps f2 (List.mem_cons_of_mem f hf2))
    refine ⟨ws2, ?_⟩
    rw [hws2]
    have harith : n + 1 + rest.length = n + (f :: rest).length := by
      simp
      omega
    rw [harith]
    simp

/-! ### The confirmation stage on healthy identical files -/

lemma md5_hasher_step_ok (cfg : Config) (fsys : FileSys) (e : Entry)
    (hh : fsys.hashOk e.1 = true)
    (hat : cfg.dupes_restoretimes = "true" →
      (strptime e.2.1).isSome ∧ (strptime e.2.2).isSome) :
    ∃ w, md5_hasher_step cfg fsys e =
      (w, some (e.1, stream_md5 cfg.md5_readsize (fsys.content e.1))) := by
  unfold md5_hasher_step
  rw [hh]
  simp only [Bool.true_eq_false, if_false]
  by_cases hres : cfg.dupes_restoretimes = "true"
  · obtain ⟨ua, hua⟩ := Option.isSome_iff_exists.mp (hat hres).1
    obtain ⟨ub, hub⟩ := Option.isSome_iff_exists.mp (hat hres).2
    rw [if_pos hres, hua, hub]
    exact ⟨_, rfl⟩
  · rw [if_neg hres]
    exact ⟨[], rfl⟩

lemma bucketFold_const (cfg : Config) (fsys : FileSys) (m : String) :
    ∀ (entries : List Entry) (ws : List String) (outs : List (String × String)),
    (∀ e ∈ entries, ∃ w, md5_hasher_step cfg fsys e = (w, some (e.1, m))) →
    ∃ ws2, entries.foldl (bucketStep cfg fsys) (ws, outs) =
      (ws2, outs ++ entries.map (fun e => (e.1, m))) := by
  intro entries
  induction entries with
  | nil =>
    intro ws outs h
    exact ⟨ws, by simp⟩
  | cons e rest ih =>
    intro ws outs h
    obtain ⟨w, hw⟩ := h e (List.mem_cons_self e rest)
    simp only [List.foldl_cons]
    have hstep : bucketStep cfg fsys (ws, outs) e = (ws ++ w, outs ++ [(e.1, m)]) := by
      unfold bucketStep
      rw [hw]
    rw [hstep]
    obtain ⟨ws2, hws2⟩ := ih (ws ++ w) (outs ++ [(e.1, m)])
      (fun e2 he2 => h e2 (List.mem_cons_of_mem e he2))
    refine ⟨ws2, ?_⟩
    rw [hws2]
    simp

lemma md5Fold_const (m : String) :
    ∀ (ps : List (String × String)) (es : List String),
    (∀ p ∈ ps, p.2 = m) →
    md5Fold ps [(m, es)] = [(m, es ++ ps.map Prod.fst)] := by
  intro ps
  induction ps with
  | nil =>
    intro es h
    simp [md5Fold]
  | cons p rest ih =>
    intro es h
    have hp2 : p.2 = m := h p (List.mem_cons_self p rest)
    simp only [md5Fold, List.foldl_cons]
    rw [hp2, addToAssoc_singleton]
    have := ih (es ++ [p.1]) (fun q hq => h q (List.mem_cons_of_mem p hq))
    simpa [md5Fold, List.append_assoc] using this

lemma md5Fold_const_nil (m : String) (ps : List (String × String))
    (hne : ps ≠ []) (h : ∀ p ∈ ps, p.2 = m) :
    md5Fold ps [] = [(m, ps.map Prod.fst)] := by
  cases ps with
  | nil => exact absurd rfl hne
  | cons p rest =>
    have hp2 : p.2 = m := h p (List.mem_cons_self p rest)
    simp only [md5Fold, List.foldl_cons]
    rw [hp2]
    have hfirst : addToAssoc ([] : List (String × List String)) m p.1 = [(m, [p.1])] := rfl
    rw [hfirst]
    have := md5Fold_const m rest [p.1] (fun q hq => h q (List.mem_cons_of_mem p hq))
    simpa [md5Fold] using this

/-! ### C1: identical content is confirmed with the streamed md5 -/

/-- C1 (amended): for every group of at least two files whose contents are
all equal and non-empty, with healthy I/O and parseable recorded times when
preservation is on, `verify_dupes` returns the group with every member's
md5 field set to one shared value — the digest `md5_hasher` computes by
streaming the full content in read-size blocks — and that digest equals the
md5 of the complete content.  (Identical empty files are excluded: the
sampling stage drops 0-byte files, see the C2 result.) -/
theorem c1_amended (cfg : Config) (fsys : FileSys) (g : HashGroup) (c : Bytes)
    (hlen : 2 ≤ g.files.length)
    (hc : ∀ f ∈ g.files, fsys.content f.filename = c)
    (hne : c ≠ [])
    (hrs : 0 < cfg.md5_readsize)
    (hio : ∀ f ∈ g.files, fsys.sampleOpenOk f.filename = true ∧
      fsys.sampleReadOk f.filename = true ∧ fsys.hashOk f.filename = true)
    (hts : cfg.dupes_restoretimes = "true" →
      ∀ f ∈ g.files, (strptime f.atime).isSome ∧ (strptime f.mtime).isSome) :
    ∃ ws g2, verify_dupes cfg fsys g = (ws, .ret (some g2)) ∧
      g2.files.length = g.files.length ∧
      (∀ f2 ∈ g2.files, f2.md5 = stream_md5 cfg.md5_readsize c) ∧
      stream_md5 cfg.md5_readsize c = md5hex c := by
  have hstream := stream_md5_eq cfg.md5_readsize c hrs
  have hsig : ∀ f ∈ g.files, ∃ w, sampleStep cfg fsys f =
      .ok w (sigOfContent cfg.dupes_checkbytes c) := by
    intro f hf
    have h := sampleStep_ok cfg fsys f (hio f hf).1 (hio f hf).2.1
      (by rw [hc f hf]; exact hne)
      (fun hres => hts hres f hf)
    rw [hc f hf] at h
    exact h
  obtain ⟨f0, rest, hg⟩ : ∃ f0 rest, g.files = f0 :: rest := by
    cases hgf : g.files with
    | nil => rw [hgf] at hlen; simp at hlen
    | cons a l => exact ⟨a, l, rfl⟩
  obtain ⟨w0, hw0⟩ := hsig f0 (by rw [hg]; exact List.mem_cons_self _ _)
  obtain ⟨ws1, hloop⟩ := sampleLoop_const cfg fsys (sigOfContent cfg.dupes_checkbytes c)
    rest w0 1 [entryOf f0]
    (fun f hf => hsig f (by rw [hg]; exact List.mem_cons_of_mem _ hf))
  have hloop0 : sampleLoop cfg fsys g.files ([], 0, []) =
      some (ws1, 1 + rest.length,
        [(sigOfContent cfg.dupes_checkbytes c, g.files.map entryOf)]) := by
    rw [hg]
    simp only [sampleLoop, hw0]
    simpa [addToAssoc] using hloop
  have hlen2 : 2 ≤ (g.files.map entryOf).length := by
    rw [List.length_map]
    exact hlen
  have hprune : prune [(sigOfContent cfg.dupes_checkbytes c, g.files.map entryOf)] =
      [(sigOfContent cfg.dupes_checkbytes c, g.files.map entryOf)] := by
    simp [prune, hlen]
  have hhash : ∀ e ∈ g.files.map entryOf, ∃ w,
      md5_hasher_step cfg fsys e = (w, some (e.1, stream_md5 cfg.md5_readsize c)) := by
    intro e he
    obtain ⟨f, hf, rfl⟩ := List.mem_map.mp he
    have h := md5_hasher_step_ok cfg fsys (entryOf f) (hio f hf).2.2
      (fun hres => hts hres f hf)
    simp only [entryOf] at h ⊢
    rw [hc f hf] at h
    exact h
  obtain ⟨ws2, hbucket⟩ := bucketFold_const cfg fsys (stream_md5 cfg.md5_readsize c)
    (g.files.map entryOf) [] [] hhash
  have hcb : confirmBucket cfg fsys (g.files.map entryOf) =
      (ws2, (g.files.map entryOf).map (fun e => (e.1, stream_md5 cfg.md5_readsize c))) := by
    unfold confirmBucket
    rw [hbucket]
    simp only [List.nil_append]
  have houts_ne : (g.files.map entryOf).map
      (fun e => (e.1, stream_md5 cfg.md5_readsize c)) ≠ [] := by
    rw [hg]
    simp
  have hmapfst : ((g.files.map entryOf).map
        (fun e => (e.1, stream_md5 cfg.md5_readsize c))).map Prod.fst =
      g.files.map (fun f => f.filename) := by
    rw [List.map_map, List.map_map]
    rfl
  have hfold : md5Fold ((g.files.map entryOf).map
        (fun e => (e.1, stream_md5 cfg.md5_readsize c))) [] =
      [(stream_md5 cfg.md5_readsize c, g.files.map (fun f => f.filename))] := by
    rw [md5Fold_const_nil (stream_md5 cfg.md5_readsize c) _ houts_ne
      (by intro p hp; obtain ⟨e, he, rfl⟩ := List.mem_map.mp hp; rfl)]
    rw [hmapfst]
  have hca : confirmAll cfg fsys
      [(sigOfContent cfg.dupes_checkbytes c, g.files.map entryOf)] ws1 [] =
      (ws1 ++ ws2,
        some [(stream_md5 cfg.md5_readsize c, g.files.map (fun f => f.filename))]) := by
    simp only [confirmAll, hcb]
    rw [if_neg houts_ne]
    rw [hfold]
  have hnames_len : 2 ≤ (g.files.map (fun f => f.filename)).length := by
    rw [List.length_map]
    exact hlen
  have hassign : assignMd5 g.files
      [(stream_md5 cfg.md5_readsize c, g.files.map (fun f => f.filename))] =
      g.files.map (fun f => if f.filename ∈ g.files.map (fun f2 => f2.filename)
        then { f with md5 := stream_md5 cfg.md5_readsize c } else f) := by
    simp only [assignMd5, assignStep, List.foldl_cons, List.foldl_nil]
    rw [if_pos hnames_len]
  have hverify : verify_dupes cfg fsys g =
      (ws1 ++ ws2, .ret (some { g with files := (assignMd5 g.files
        [(stream_md5 cfg.md5_readsize c, g.files.map (fun f => f.filename))]) })) := by
    simp only [verify_dupes, hloop0]
    rw [if_neg (show ¬ (1 + rest.length = 0) by omega)]
    rw [hprune]
    rw [if_neg (show ¬ ([(sigOfContent cfg.dupes_checkbytes c, g.files.map entryOf)] =
      ([] : List (String × List Entry))) by simp)]
    rw [hca]
    simp only [verifyFinish]
    rw [if_neg (show ¬ ([(stream_md5 cfg.md5_readsize c,
      g.files.map (fun f => f.filename))] = ([] : List (String × List String))) by simp)]
  refine ⟨ws1 ++ ws2, _, hverify, ?_, ?_, hstream⟩
  · rw [hassign]
    simp
  · intro f2 hf2
    rw [hassign] at hf2
    obtain ⟨f, hf, rfl⟩ := List.mem_map.mp hf2
    rw [if_pos (List.mem_map.mpr ⟨f, hf, rfl⟩)]

/-- Counterexample to C1 as stated: a group of two files with identical
(empty) content for which `verify_dupes` assigns no content-hash at all —
it returns `None`, because the sampling stage drops every 0-byte file. -/
def cfgC1 : Config :=
  { dupes_checkbytes := 2, md5_readsize := 4, dupes_restoretimes := "false" }

def fsysC1 : FileSys := fsHealthy (fun _ => [])

def grpC1 : HashGroup := { filehash := "fh", files := [recW "x", recW "y"] }

/-- C1 (counterexample): two files of the group have identical full content,
yet `verify_dupes` returns the nothing-confirmed value and assigns no md5,
contradicting the claim for groups of empty files. -/
theorem c1_counterexample :
    fsysC1.content "x" = fsysC1.content "y" ∧
    (verify_dupes cfgC1 fsysC1 grpC1).2 = VerifyOut.ret none := by
  refine ⟨rfl, by decide⟩

/-- Witness for the amended C1: a concrete group of two identical two-byte
files is confirmed with the shared streamed md5. -/
def fsysC1w : FileSys := fsHealthy (fun _ => [1, 2])

def grpC1w : HashGroup := { filehash := "fh", files := [recW "a", recW "b"] }

def cfgC1w : Config :=
  { dupes_checkbytes := 1, md5_readsize := 4, dupes_restoretimes := "false" }

theorem c1_amended_witness :
    ∃ ws g2, verify_dupes cfgC1w fsysC1w grpC1w = (ws, .ret (some g2)) ∧
      g2.files.length = grpC1w.files.length ∧
      (∀ f2 ∈ g2.files, f2.md5 = stream_md5 cfgC1w.md5_readsize [1, 2]) ∧
      stream_md5 cfgC1w.md5_readsize [1, 2] = md5hex [1, 2] :=
  c1_amended cfgC1w fsysC1w grpC1w [1, 2] (by decide)
    (fun f hf => rfl) (by decide) (by decide)
    (fun f hf => ⟨rfl, rfl, rfl⟩)
    (fun hres => by exact absurd hres (by decide))

/-! ### C4: when verify_dupes returns the nothing-confirmed value -/

lemma confirmAll_some_ne (cfg : Config) (fsys : FileSys) :
    ∀ (bs : List (String × List Entry)) (ws ws2 : List String)
      (acc d : List (String × List String)),
    confirmAll cfg fsys bs ws acc = (ws2, some d) →
    (bs ≠ [] ∨ acc ≠ []) → d ≠ [] := by
  intro bs
  induction bs with
  | nil =>
    intro ws ws2 acc d h hne
    simp only [confirmAll] at h
    obtain ⟨h1, h2⟩ := Prod.mk.injEq .. ▸ h
    rcases hne with hb | ha
    · exact absurd rfl hb
    · rw [← Option.some_inj.mp h2]
      exact ha
  | cons b rest ih =>
    intro ws ws2 acc d h hne
    obtain ⟨k, entries⟩ := b
    simp only [confirmAll] at h
    by_cases hout : (confirmBucket cfg fsys entries).2 = []
    · rw [if_pos hout] at h
      simp at h
    · rw [if_neg hout] at h
      exact ih _ _ _ _ h (Or.inr (md5Fold_ne_nil _ _ (Or.inl hout)))

/-- C4 (amended): `verify_dupes` returns the nothing-confirmed value `None`
exactly when the sampling stage leaves zero surviving files or zero sample
buckets with at least two members.  When hashing does run, at least one md5
result per bucket reaches `dups_md5` (or the drain loop blocks), so the
source's final `if not dups_md5: return None` never fires: in particular
when every multi-member sample bucket splits into singleton md5 groups the
function returns the group object untouched, not `None`. -/
theorem c4_ret_none_iff (cfg : Config) (fsys : FileSys) (g : HashGroup) :
    (verify_dupes cfg fsys g).2 = VerifyOut.ret none ↔
    (∃ n dups, samplingOutcome cfg fsys g = some (n, dups) ∧
      (n = 0 ∨ prune dups = [])) := by
  unfold verify_dupes samplingOutcome
  cases hs : sampleLoop cfg fsys g.files ([], 0, []) with
  | none => simp
  | some t =>
    obtain ⟨ws, n, dups⟩ := t
    by_cases hn : n = 0
    · subst hn
      simp
      exact ⟨0, dups, ⟨rfl, rfl⟩, Or.inl rfl⟩
    · by_cases hp : prune dups = []
      · simp [hn, hp]
        exact ⟨n, dups, ⟨rfl, rfl⟩, Or.inr hp⟩
      · cases hca : confirmAll cfg fsys (prune dups) ws [] with
        | mk ws2 od =>
          cases od with
          | none => simp [hca, verifyFinish, hn, hp]
          | some d =>
            have hd : d ≠ [] :=
              confirmAll_some_ne cfg fsys (prune dups) ws ws2 [] d hca (Or.inl hp)
            simp [hca, verifyFinish, hd, hn, hp]

def cfgC4w : Config :=
  { dupes_checkbytes := 2, md5_readsize := 4, dupes_restoretimes := "false" }

def fsysC4w : FileSys := fsHealthy (fun _ => [])

def grpC4w : HashGroup := { filehash := "fh", files := [recW "a", recW "b"] }

/-- Witness for the amended C4: a concrete group whose files all fail
sampling yields `None`, through the iff instantiated at that group. -/
theorem c4_ret_none_iff_witness :
    (verify_dupes cfgC4w fsysC4w grpC4w).2 = VerifyOut.ret none :=
  (c4_ret_none_iff cfgC4w fsysC4w grpC4w).mpr ⟨0, [], rfl, Or.inl rfl⟩

/-! ### C5: utime failures are swallowed and never change the result -/

/-- The utime-independent shape of a sampling-step outcome: raised, skipped,
or the sample signature. -/
def sampleShape : SampleRes → Option (Option String)
  | .raised => none
  | .skip _ => some none
  | .ok _ sig => some (some sig)

lemma sampleStep_withUtime (cfg : Config) (fsys : FileSys) (u : String → Bool)
    (f : FileRec) :
    sampleShape (sampleStep cfg (fsys.withUtime u) f) =
    sampleShape (sampleStep cfg fsys f) := by
  by_cases ho : fsys.sampleOpenOk f.filename = false
  · simp [sampleStep, ho]
  · by_cases hr : fsys.sampleReadOk f.filename = false
    · simp [sampleStep, ho, hr]
    · cases ht : tailSample cfg.dupes_checkbytes (fsys.content f.filename) with
      | none => simp [sampleStep, ho, hr, ht]
      | some tl =>
        by_cases hres : cfg.dupes_restoretimes = "true"
        · cases ha : strptime f.atime <;> cases hb : strptime f.mtime <;>
            simp [sampleStep, sampleShape, ho, hr, ht, hres, ha, hb]
        · simp [sampleStep, sampleShape, ho, hr, ht, hres]

lemma md5_hasher_step_withUtime (cfg : Config) (fsys : FileSys)
    (u : String → Bool) (e : Entry) :
    (md5_hasher_step cfg (fsys.withUtime u) e).2 =
    (md5_hasher_step cfg fsys e).2 := by
  by_cases hh : fsys.hashOk e.1 = false
  · simp [md5_hasher_step, hh]
  · by_cases hres : cfg.dupes_restoretimes = "true"
    · cases ha : strptime e.2.1 <;> cases hb : strptime e.2.2 <;>
        simp [md5_hasher_step, hh, hres, ha, hb]
    · simp [md5_hasher_step, hh, hres]

lemma sampleLoop_withUtime (cfg : Config) (fsys : FileSys) (u : String → Bool) :
    ∀ (files : List FileRec) (ws ws2 : List String) (n : Nat)
      (dups : List (String × List Entry)),
    (sampleLoop cfg (fsys.withUtime u) files (ws2, n, dups)).map (fun t => t.2) =
    (sampleLoop cfg fsys files (ws, n, dups)).map (fun t => t.2) := by
  intro files
  induction files with
  | nil => intro ws ws2 n dups; rfl
  | cons f rest ih =>
    intro ws ws2 n dups
    have hsh := sampleStep_withUtime cfg fsys u f
    cases h1 : sampleStep cfg (fsys.withUtime u) f with
    | skip w =>
      cases h2 : sampleStep cfg fsys f with
      | skip w2 =>
        simp only [sampleLoop, h1, h2]
        exact ih _ _ _ _
      | raised => rw [h1, h2] at hsh; simp [sampleShape] at hsh
      | ok w2 s2 => rw [h1, h2] at hsh; simp [sampleShape] at hsh
    | raised =>
      cases h2 : sampleStep cfg fsys f with
      | skip w2 => rw [h1, h2] at hsh; simp [sampleShape] at hsh
      | raised => simp only [sampleLoop, h1, h2]
      | ok w2 s2 => rw [h1, h2] at hsh; simp [sampleShape] at hsh
    | ok w s =>
      cases h2 : sampleStep cfg fsys f with
      | skip w2 => rw [h1, h2] at hsh; simp [sampleShape] at hsh
      | raised => rw [h1, h2] at hsh; simp [sampleShape] at hsh
      | ok w2 s2 =>
        rw [h1, h2] at hsh
        simp only [sampleShape, Option.some.injEq] at hsh
        subst hsh
        simp only [sampleLoop, h1, h2]
        exact ih _ _ _ _

lemma bucketFold_withUtime (cfg : Config) (fsys : FileSys) (u : String → Bool) :
    ∀ (entries : List Entry) (ws ws2 : List String)
      (outs : List (String × String)),
    (entries.foldl (bucketStep cfg (fsys.withUtime u)) (ws2, outs)).2 =
    (entries.foldl (bucketStep cfg fsys) (ws, outs)).2 := by
  intro entries
  induction entries with
  | nil => intro ws ws2 outs; rfl
  | cons e rest ih =>
    intro ws ws2 outs
    have hst := md5_hasher_step_withUtime cfg fsys u e
    simp only [List.foldl_cons]
    cases h1 : md5_hasher_step cfg (fsys.withUtime u) e with
    | mk w1 o1 =>
      cases h2 : md5_hasher_step cfg fsys e with
      | mk w2 o2 =>
        rw [h1, h2] at hst
        simp only at hst
        subst hst
        cases o1 with
        | none =>
          have hb1 : bucketStep cfg (fsys.withUtime u) (ws2, outs) e = (ws2 ++ w1, outs) := by
            unfold bucketStep
            rw [h1]
          have hb2 : bucketStep cfg fsys (ws, outs) e = (ws ++ w2, outs) := by
            unfold bucketStep
            rw [h2]
          rw [hb1, hb2]
          exact ih _ _ _
        | some r =>
          have hb1 : bucketStep cfg (fsys.withUtime u) (ws2, outs) e =
              (ws2 ++ w1, outs ++ [r]) := by
            unfold bucketStep
            rw [h1]
          have hb2 : bucketStep cfg fsys (ws, outs) e = (ws ++ w2, outs ++ [r]) := by
            unfold bucketStep
            rw [h2]
          rw [hb1, hb2]
          exact ih _ _ _

lemma confirmAll_withUtime (cfg : Config) (fsys : FileSys) (u : String → Bool) :
    ∀ (bs : List (String × List Entry)) (ws ws2 : List String)
      (acc : List (String × List String)),
    (confirmAll cfg (fsys.withUtime u) bs ws2 acc).2 =
    (confirmAll cfg fsys bs ws acc).2 := by
  intro bs
  induction bs with
  | nil => intro ws ws2 acc; rfl
  | cons b rest ih =>
    intro ws ws2 acc
    obtain ⟨k, entries⟩ := b
    have hcb : (confirmBucket cfg (fsys.withUtime u) entries).2 =
        (confirmBucket cfg fsys entries).2 :=
      bucketFold_withUtime cfg fsys u entries [] [] []
    simp only [confirmAll]
    by_cases hout : (confirmBucket cfg fsys entries).2 = []
    · rw [if_pos hout, if_pos (by rw [hcb]; exact hout)]
    · rw [if_neg hout, if_neg (by rw [hcb]; exact hout)]
      rw [hcb]
      exact ih _ _ _

lemma verifyFinish_snd (g : HashGroup) (ws1 ws2 : List String)
    (o : Option (List (String × List String))) :
    (verifyFinish g (ws1, o)).2 = (verifyFinish g (ws2, o)).2 := by
  cases o with
  | none => rfl
  | some d => by_cases hd : d = [] <;> simp [verifyFinish, hd]

/-- C5 (amended): failures of `os.utime` while restoring the recorded
access/modify times are logged and swallowed in both stages — they change
the warnings only, never the observable outcome of `verify_dupes` and never
the result `md5_hasher` emits for a file.  (Failures to parse the recorded
time strings behave differently and are covered by the C5 counterexample:
the sampling stage raises, and `md5_hasher` drops the file's result.) -/
theorem c5_utime_swallowed (cfg : Config) (fsys : FileSys) (u : String → Bool)
    (g : HashGroup) (e : Entry) :
    (verify_dupes cfg (fsys.withUtime u) g).2 = (verify_dupes cfg fsys g).2 ∧
    (md5_hasher_step cfg (fsys.withUtime u) e).2 = (md5_hasher_step cfg fsys e).2 := by
  refine ⟨?_, md5_hasher_step_withUtime cfg fsys u e⟩
  have key : ∀ (wsa wsb : List String) (n : Nat) (dups : List (String × List Entry)),
      ((if n = 0 then (wsa, VerifyOut.ret none)
        else if prune dups = [] then (wsa, VerifyOut.ret none)
        else verifyFinish g (confirmAll cfg (fsys.withUtime u) (prune dups) wsa [])).2 =
       (if n = 0 then (wsb, VerifyOut.ret none)
        else if prune dups = [] then (wsb, VerifyOut.ret none)
        else verifyFinish g (confirmAll cfg fsys (prune dups) wsb [])).2) := by
    intro wsa wsb n dups
    by_cases hn : n = 0
    · simp [hn]
    · rw [if_neg hn, if_neg hn]
      by_cases hp : prune dups = []
      · rw [if_pos hp, if_pos hp]
      · rw [if_neg hp, if_neg hp]
        have hca := confirmAll_withUtime cfg fsys u (prune dups) wsb wsa []
        cases hc1 : confirmAll cfg (fsys.withUtime u) (prune dups) wsa [] with
        | mk wsx ox =>
          cases hc2 : confirmAll cfg fsys (prune dups) wsb [] with
          | mk wsy oy =>
            rw [hc1, hc2] at hca
            simp only at hca
            subst hca
            exact verifyFinish_snd g wsx wsy ox
  have hloop := sampleLoop_withUtime cfg fsys u g.files [] [] 0 []
  unfold verify_dupes
  cases h1 : sampleLoop cfg (fsys.withUtime u) g.files ([], 0, []) with
  | none =>
    cases h2 : sampleLoop cfg fsys g.files ([], 0, []) with
    | none => rfl
    | some t2 =>
      rw [h1, h2] at hloop
      simp at hloop
  | some t1 =>
    obtain ⟨wsa, n1, dups1⟩ := t1
    cases h2 : sampleLoop cfg fsys g.files ([], 0, []) with
    | none =>
      rw [h1, h2] at hloop
      simp at hloop
    | some t2 =>
      obtain ⟨wsb, n2, dups2⟩ := t2
      rw [h1, h2] at hloop
      simp only [Option.map_some', Option.some.injEq, Prod.mk.injEq] at hloop
      obtain ⟨hn, hd⟩ := hloop
      subst hn
      subst hd
      exact key wsa wsb n1 dups1

/-! ### C10: the returned group only gains md5 fields of confirmed sets -/

lemma assignStep_length (files : List FileRec) (p : String × List String) :
    (assignStep files p).length = files.length := by
  unfold assignStep
  by_cases hp : 2 ≤ p.2.length <;> simp [hp]

lemma assignMd5_length : ∀ (d : List (String × List String)) (files : List FileRec),
    (assignMd5 files d).length = files.length := by
  intro d
  induction d with
  | nil => intro files; rfl
  | cons p rest ih =>
    intro files
    have hcons : assignMd5 files (p :: rest) = assignMd5 (assignStep files p) rest := rfl
    rw [hcons, ih, assignStep_length]

lemma assignMd5_frame : ∀ (d : List (String × List String)) (files : List FileRec)
    (i : Nat) (hi : i < files.length) (hi2 : i < (assignMd5 files d).length),
    (assignMd5 files d)[i].id = files[i].id ∧
    (assignMd5 files d)[i].filename = files[i].filename ∧
    (assignMd5 files d)[i].atime = files[i].atime ∧
    (assignMd5 files d)[i].mtime = files[i].mtime ∧
    ((assignMd5 files d)[i].md5 = files[i].md5 ∨
      ∃ p ∈ d, 2 ≤ p.2.length ∧ files[i].filename ∈ p.2 ∧
        (assignMd5 files d)[i].md5 = p.1) := by
  intro d
  induction d with
  | nil =>
    intro files i hi hi2
    exact ⟨rfl, rfl, rfl, rfl, Or.inl rfl⟩
  | cons p rest ih =>
    intro files i hi hi2
    have hcons : assignMd5 files (p :: rest) = assignMd5 (assignStep files p) rest := rfl
    have hi3 : i < (assignStep files p).length := by
      rw [assignStep_length]
      exact hi
    have hi4 : i < (assignMd5 (assignStep files p) rest).length := by
      rw [← hcons]
      exact hi2
    have IH := ih (assignStep files p) i hi3 hi4
    simp only [hcons]
    by_cases hp : 2 ≤ p.2.length
    · have hstep : (assignStep files p)[i] =
          (if files[i].filename ∈ p.2 then { files[i] with md5 := p.1 }
            else files[i]) := by
        simp only [assignStep, if_pos hp, List.getElem_map]
      by_cases hm : files[i].filename ∈ p.2
      · rw [if_pos hm] at hstep
        refine ⟨?_, ?_, ?_, ?_, ?_⟩
        · rw [IH.1, hstep]
        · rw [IH.2.1, hstep]
        · rw [IH.2.2.1, hstep]
        · rw [IH.2.2.2.1, hstep]
        · rcases IH.2.2.2.2 with heq | ⟨q, hq, hql, hqm, hqe⟩
          · exact Or.inr ⟨p, List.mem_cons_self p rest, hp, hm, by rw [heq, hstep]⟩
          · rw [hstep] at hqm
            exact Or.inr ⟨q, List.mem_cons_of_mem p hq, hql, hqm, hqe⟩
      · rw [if_neg hm] at hstep
        refine ⟨?_, ?_, ?_, ?_, ?_⟩
        · rw [IH.1, hstep]
        · rw [IH.2.1, hstep]
        · rw [IH.2.2.1, hstep]
        · rw [IH.2.2.2.1, hstep]
        · rcases IH.2.2.2.2 with heq | ⟨q, hq, hql, hqm, hqe⟩
          · exact Or.inl (by rw [heq, hstep])
          · rw [hstep] at hqm
            exact Or.inr ⟨q, List.mem_cons_of_mem p hq, hql, hqm, hqe⟩
    · have hstep : assignStep files p = files := by
        unfold assignStep
        rw [if_neg hp]
      have helem : (assignStep files p)[i] = files[i] := by
        simp only [hstep]
      refine ⟨?_, ?_, ?_, ?_, ?_⟩
      · rw [IH.1, helem]
      · rw [IH.2.1, helem]
      · rw [IH.2.2.1, helem]
      · rw [IH.2.2.2.1, helem]
      · rcases IH.2.2.2.2 with heq | ⟨q, hq, hql, hqm, hqe⟩
        · exact Or.inl (by rw [heq, helem])
        · rw [helem] at hqm
          exact Or.inr ⟨q, List.mem_cons_of_mem p hq, hql, hqm, hqe⟩

/-- C10: when `verify_dupes` returns a group, it is the input group with
only md5 assignments applied: the filehash and the file count are unchanged,
every file keeps its id, path and times, and a file's md5 field changes only
when the file belongs to a confirmed duplicate set of size at least two in
the run's `dups_md5` map — every other file keeps its original md5 (the
empty string that `dupes_finder` initialises every record with). -/
theorem c10_frame (cfg : Config) (fsys : FileSys) (g : HashGroup)
    (ws : List String) (g2 : HashGroup)
    (h : verify_dupes cfg fsys g = (ws, VerifyOut.ret (some g2))) :
    g2.filehash = g.filehash ∧
    g2.files.length = g.files.length ∧
    (∃ d, confirmedMap cfg fsys g = some d ∧ g2.files = assignMd5 g.files d ∧
      ∀ (i : Nat) (hi : i < g.files.length) (hi2 : i < g2.files.length),
        g2.files[i].id = g.files[i].id ∧
        g2.files[i].filename = g.files[i].filename ∧
        g2.files[i].atime = g.files[i].atime ∧
        g2.files[i].mtime = g.files[i].mtime ∧
        (g2.files[i].md5 = g.files[i].md5 ∨
          ∃ p ∈ d, 2 ≤ p.2.length ∧ g.files[i].filename ∈ p.2 ∧
            g2.files[i].md5 = p.1)) ∧
    (∀ hit : EsHit, (hitToFileRec hit).md5 = "") := by
  have hinv : ∃ d, confirmedMap cfg fsys g = some d ∧
      g2 = { g with files := assignMd5 g.files d } := by
    unfold verify_dupes at h
    cases hs : sampleLoop cfg fsys g.files ([], 0, []) with
    | none =>
      rw [hs] at h
      simp at h
    | some t =>
      obtain ⟨ws1, n, dups⟩ := t
      rw [hs] at h
      by_cases hn : n = 0
      · simp [hn] at h
      · by_cases hp : prune dups = []
        · simp [hn, hp] at h
        · simp only [hn, hp, if_false, if_neg hn, if_neg hp] at h
          have hcm : confirmedMap cfg fsys g = (confirmAll cfg fsys (prune dups) ws1 []).2 := by
            unfold confirmedMap
            rw [hs]
            simp [hn, hp]
          cases hca : confirmAll cfg fsys (prune dups) ws1 [] with
          | mk ws2 od =>
            rw [hca] at h hcm
            simp only at h hcm
            cases od with
            | none => simp [verifyFinish] at h
            | some d =>
              by_cases hd : d = []
              · simp [verifyFinish, hd] at h
              · simp only [verifyFinish] at h
                rw [if_neg hd] at h
                have h2 := congrArg Prod.snd h
                simp only at h2
                refine ⟨d, hcm, ?_⟩
                cases h2 with
                | refl => rfl
  obtain ⟨d, hcm, hg2⟩ := hinv
  subst hg2
  refine ⟨rfl, by simpa using assignMd5_length d g.files, ⟨d, hcm, rfl, ?_⟩, fun hit => rfl⟩
  intro i hi hi2
  exact assignMd5_frame d g.files i hi hi2

def cfgC10 : Config :=
  { dupes_checkbytes := 1, md5_readsize := 4, dupes_restoretimes := "false" }

def fsysC10 : FileSys := fsHealthy (fun _ => [1, 2])

def grpC10 : HashGroup := { filehash := "fh", files := [recW "a", recW "b"] }

def grpC10out : HashGroup :=
  { filehash := "fh",
    files := [{ recW "a" with md5 := "md5-[1, 2]" },
              { recW "b" with md5 := "md5-[1, 2]" }] }

/-- Witness for C10: a concrete confirmed run returns the same group with
only the md5 fields changed, as described by the frame theorem. -/
theorem c10_frame_witness :
    grpC10out.filehash = grpC10.filehash ∧
    grpC10out.files.length = grpC10.files.length ∧
    (∃ d, confirmedMap cfgC10 fsysC10 grpC10 = some d ∧
      grpC10out.files = assignMd5 grpC10.files d ∧
      ∀ (i : Nat) (hi : i < grpC10.files.length) (hi2 : i < grpC10out.files.length),
        grpC10out.files[i].id = grpC10.files[i].id ∧
        grpC10out.files[i].filename = grpC10.files[i].filename ∧
        grpC10out.files[i].atime = grpC10.files[i].atime ∧
        grpC10out.files[i].mtime = grpC10.files[i].mtime ∧
        (grpC10out.files[i].md5 = grpC10.files[i].md5 ∨
          ∃ p ∈ d, 2 ≤ p.2.length ∧ grpC10.files[i].filename ∈ p.2 ∧
            grpC10out.files[i].md5 = p.1)) ∧
    (∀ hit : EsHit, (hitToFileRec hit).md5 = "") :=
  c10_frame cfgC10 fsysC10 grpC10 [] grpC10out (by decide)

end Diskover
